import Mathlib

/-!
Shallow embedding of the ring buffer and CRC16-CCITT engine of
`src/example.c` (util_module.c), together with proofs of the testable
properties of its specification.

Machine integers are modelled as `Nat` with explicit `% 2^w` where the C
code truncates (`uint16_t` casts); the 1024-byte backing store
`s_ring_storage` is a `List Nat` of length 1024; the module-global mutable
variables (`s_ring`, `g_total_bytes_pushed`, `g_total_bytes_popped`,
`g_config.ring_capacity`) are gathered into an explicit state record that
every operation threads.
-/

namespace UtilModule

/-- The module-global ring state: `s_ring_storage`, `s_ring.head`,
`s_ring.tail`, `s_ring.capacity`, the two cumulative counters
`g_total_bytes_pushed` / `g_total_bytes_popped`, and
`g_config.ring_capacity` (used by `module_init NULL`). -/
structure ModuleState where
  storage : List Nat
  head : Nat
  tail : Nat
  capacity : Nat
  total_pushed : Nat
  total_popped : Nat
  config_capacity : Nat
  deriving Repr, DecidableEq

/-- The state at program start: `s_ring_storage` zero-initialised,
`s_ring = {0, 0, 0}`, counters zero, `g_config.ring_capacity = 256`. -/
def initialState : ModuleState :=
  { storage := List.replicate 1024 0
    head := 0
    tail := 0
    capacity := 0
    total_pushed := 0
    total_popped := 0
    config_capacity := 256 }

/-- `prv_ring_empty`: `s_ring.head == s_ring.tail`. -/
def prv_ring_empty (s : ModuleState) : Bool :=
  s.head == s.tail

/-- `prv_ring_full`: `(uint16_t)((s_ring.head + 1u) % s_ring.capacity) == s_ring.tail`.
(The `uint16_t` cast is the identity here since the result of `% capacity`
is below `capacity ≤ 65535`.) -/
def prv_ring_full (s : ModuleState) : Bool :=
  (s.head + 1) % s.capacity == s.tail

/-- One iteration of the `ring_push` copy loop body:
`s_ring_storage[s_ring.head] = b; s_ring.head = (s_ring.head + 1) % s_ring.capacity`. -/
def pushedState (s : ModuleState) (b : Nat) : ModuleState :=
  { s with storage := s.storage.set s.head b, head := (s.head + 1) % s.capacity }

/-- One iteration of the `ring_pop` copy loop body on the state:
`s_ring.tail = (s_ring.tail + 1) % s_ring.capacity` (the byte read is
returned by the loop function). -/
def poppedState (s : ModuleState) : ModuleState :=
  { s with tail := (s.tail + 1) % s.capacity }

/-- The copy loop of `ring_push`: while bytes remain and the ring is not
full, write the next byte at `head` and advance `head = (head + 1) % capacity`.
Returns the number of bytes written and the updated state (counter untouched;
the C code adds to `g_total_bytes_pushed` after the loop). -/
def ring_push_loop : List Nat → ModuleState → Nat × ModuleState
  | [], s => (0, s)
  | b :: rest, s =>
    if prv_ring_full s then (0, s)
    else
      let (n, s'') := ring_push_loop rest (pushedState s b)
      (n + 1, s'')

/-- `ring_push(data, len)`: the data pointer and `len` are modelled as the
list `data` of the `len` bytes read from it (the pointer is non-null).
`len == 0` returns 0 immediately; otherwise the copy loop runs and
`g_total_bytes_pushed += pushed`. -/
def ring_push (data : List Nat) (s : ModuleState) : Nat × ModuleState :=
  if data.isEmpty then (0, s)
  else
    let (n, s') := ring_push_loop data s
    (n, { s' with total_pushed := s'.total_pushed + n })

/-- The copy loop of `ring_pop`: while fewer than `len` bytes have been
copied and the ring is not empty, read the byte at `tail` and advance
`tail = (tail + 1) % capacity`. Returns the bytes copied (in order) and
the updated state. -/
def ring_pop_loop : Nat → ModuleState → List Nat × ModuleState
  | 0, s => ([], s)
  | n + 1, s =>
    if prv_ring_empty s then ([], s)
    else
      let b := s.storage.getD s.tail 0
      let (bs, s'') := ring_pop_loop n (poppedState s)
      (b :: bs, s'')

/-- `ring_pop(out, len)`: the output buffer is modelled as the returned
list of popped bytes (the pointer is non-null). `len == 0` returns 0
immediately; otherwise the copy loop runs and `g_total_bytes_popped += popped`. -/
def ring_pop (len : Nat) (s : ModuleState) : List Nat × ModuleState :=
  if len = 0 then ([], s)
  else
    let (bs, s') := ring_pop_loop len s
    (bs, { s' with total_popped := s'.total_popped + bs.length })

/-- `module_set_config(cfg)` with a non-null `cfg` whose `ring_capacity`
field is `c` (a `uint16_t`, so `c < 65536`): fails when `c == 0` or
`c > sizeof(s_ring_storage) = 1024` with no state mutation; on success
copies the config, sets the active capacity and resets `head = tail = 0`. -/
def module_set_config (c : Nat) (s : ModuleState) : Bool × ModuleState :=
  if c = 0 ∨ c > 1024 then (false, s)
  else
    (true, { s with config_capacity := c
                    capacity := c
                    head := 0
                    tail := 0 })

/-- `module_init(cfg)`: `cfg = none` models a NULL pointer, in which case
the current `g_config` (field `ring_capacity = config_capacity`) is used.
Same capacity validation and ring effect as `module_set_config`; the
additional effects (log level, CRC flag, PRNG, stats) do not touch the
ring state modelled here. -/
def module_init (cfg : Option Nat) (s : ModuleState) : Bool × ModuleState :=
  let c := cfg.getD s.config_capacity
  if c = 0 ∨ c > 1024 then (false, s)
  else
    (true, { s with config_capacity := c
                    capacity := c
                    head := 0
                    tail := 0 })

/-- `module_reset()`: `head = tail = 0` and both cumulative counters zeroed.
Always succeeds (returns `void`). -/
def module_reset (s : ModuleState) : ModuleState :=
  { s with head := 0
           tail := 0
           total_pushed := 0
           total_popped := 0 }

/-- One call of the public interface that touches the ring state.
(The remaining public functions — `crc16_ccitt`, `log_set_level`,
`srand32`, `rand32`, the stats functions — read and write none of the
ring fields.) -/
inductive Op where
  | setConfig (c : Nat)
  | initConfig (cfg : Option Nat)
  | reset
  | push (data : List Nat)
  | pop (len : Nat)
  deriving Repr, DecidableEq

/-- Effect of one call on the ring state (return values dropped). -/
def step (op : Op) (s : ModuleState) : ModuleState :=
  match op with
  | Op.setConfig c => (module_set_config c s).2
  | Op.initConfig cfg => (module_init cfg s).2
  | Op.reset => module_reset s
  | Op.push data => (ring_push data s).2
  | Op.pop len => (ring_pop len s).2

/-- Run a sequence of calls left to right. -/
def run (ops : List Op) (s : ModuleState) : ModuleState :=
  ops.foldl (fun s op => step op s) s

/-- The empty configured state: `module_set_config` with capacity `c`
applied to the start-up state. -/
def configuredState (c : Nat) : ModuleState :=
  (module_set_config c initialState).2

/-- Is this call a `ring_push` or `ring_pop`? -/
def Op.isPushPop : Op → Bool
  | Op.push _ => true
  | Op.pop _ => true
  | _ => false

/-- Number of bytes currently queued: the distance from `tail` forward to
`head` around the ring. -/
def ringCount (s : ModuleState) : Nat :=
  if s.tail ≤ s.head then s.head - s.tail else s.capacity + s.head - s.tail

/-- The queued bytes in pop order: the `k`-th byte to be popped sits at
storage index `(tail + k) % capacity`. -/
def ringList (s : ModuleState) : List Nat :=
  (List.range (ringCount s)).map (fun k => s.storage.getD ((s.tail + k) % s.capacity) 0)

/-- Usable payload capacity: one slot is sacrificed to disambiguate full
from empty. -/
def usable_capacity (s : ModuleState) : Nat :=
  s.capacity - 1

/-- State invariant of a configured ring: the backing store has its
declared 1024 bytes, the active capacity is in `[1, 1024]`, and both
cursors are in `[0, capacity)`. -/
def Inv (s : ModuleState) : Prop :=
  s.storage.length = 1024 ∧ 1 ≤ s.capacity ∧ s.capacity ≤ 1024 ∧
    s.head < s.capacity ∧ s.tail < s.capacity

instance (s : ModuleState) : Decidable (Inv s) := by
  unfold Inv; infer_instance

/-- One step of `run` paired with the cumulative number of queued bytes
discarded so far: a successful configuration call resets `head`/`tail`
(logically discarding the queued bytes) without touching the counters, so
it adds the current queue length to the discard account. -/
def stepD (op : Op) (sd : ModuleState × Nat) : ModuleState × Nat :=
  match op with
  | Op.setConfig c =>
    if (module_set_config c sd.1).1 then
      ((module_set_config c sd.1).2, sd.2 + ringCount sd.1)
    else (sd.1, sd.2)
  | Op.initConfig cfg =>
    if (module_init cfg sd.1).1 then
      ((module_init cfg sd.1).2, sd.2 + ringCount sd.1)
    else (sd.1, sd.2)
  | Op.reset => (module_reset sd.1, sd.2)
  | Op.push data => ((ring_push data sd.1).2, sd.2)
  | Op.pop len => ((ring_pop len sd.1).2, sd.2)

/-- `run` with the discard account threaded along. -/
def runD (ops : List Op) (sd : ModuleState × Nat) : ModuleState × Nat :=
  ops.foldl (fun sd op => stepD op sd) sd

/-! ### Checked (undefined-behaviour-aware) ring operations

The C expressions `(head + 1) % capacity` and `(tail + 1) % capacity` are
undefined when `capacity == 0`, and `s_ring_storage[i]` is undefined when
`i ≥ 1024`. The checked variants below return `none` exactly when such an
operation is evaluated, and otherwise mirror the total semantics. -/

/-- `%` with an explicit division-by-zero guard. -/
def mod? (a b : Nat) : Option Nat :=
  if b = 0 then none else some (a % b)

/-- `prv_ring_full` with the mod-by-zero guard surfaced. -/
def prv_ring_full? (s : ModuleState) : Option Bool :=
  (mod? (s.head + 1) s.capacity).map (fun r => r == s.tail)

/-- Checked `ring_push` copy loop. -/
def ring_push_loop? : List Nat → ModuleState → Option (Nat × ModuleState)
  | [], s => some (0, s)
  | b :: rest, s =>
    match prv_ring_full? s with
    | none => none
    | some full =>
      if full then some (0, s)
      else if s.head < s.storage.length then
        match mod? (s.head + 1) s.capacity with
        | none => none
        | some h2 =>
          match ring_push_loop? rest { s with storage := s.storage.set s.head b, head := h2 } with
          | none => none
          | some (n, s2) => some (n + 1, s2)
      else none

/-- Checked `ring_push`. -/
def ring_push? (data : List Nat) (s : ModuleState) : Option (Nat × ModuleState) :=
  if data.isEmpty then some (0, s)
  else
    match ring_push_loop? data s with
    | none => none
    | some (n, s2) => some (n, { s2 with total_pushed := s2.total_pushed + n })

/-- Checked `ring_pop` copy loop. -/
def ring_pop_loop? : Nat → ModuleState → Option (List Nat × ModuleState)
  | 0, s => some ([], s)
  | n + 1, s =>
    if prv_ring_empty s then some ([], s)
    else if s.tail < s.storage.length then
      match mod? (s.tail + 1) s.capacity with
      | none => none
      | some t2 =>
        match ring_pop_loop? n { s with tail := t2 } with
        | none => none
        | some (bs, s2) => some (s.storage.getD s.tail 0 :: bs, s2)
    else none

/-- Checked `ring_pop`. -/
def ring_pop? (len : Nat) (s : ModuleState) : Option (List Nat × ModuleState) :=
  if len = 0 then some ([], s)
  else
    match ring_pop_loop? len s with
    | none => none
    | some (bs, s2) => some (bs, { s2 with total_popped := s2.total_popped + bs.length })

/-! ### CRC16-CCITT engine -/

/-- One shift step of the CRC16 recurrence: shift left one bit and XOR with
the polynomial `0x1021` when the vacated top bit was set (`uint16_t`
arithmetic, hence `% 65536`). -/
def crcStep (crc : Nat) : Nat :=
  if crc &&& 0x8000 ≠ 0 then ((crc <<< 1) ^^^ 0x1021) % 65536
  else (crc <<< 1) % 65536

/-- The `prv_crc16_build_table` entry for byte value `i`: start from
`(uint16_t)(i << 8)` and apply 8 shift steps. -/
def crc16_table_entry (i : Nat) : Nat :=
  crcStep^[8] ((i <<< 8) % 65536)

/-- The 256-entry `s_crc16_table` as filled in by `prv_crc16_build_table`. -/
def prv_crc16_build_table : List Nat :=
  (List.range 256).map crc16_table_entry

/-- The CRC global state: `s_crc_table_ready` and `s_crc16_table`. -/
structure CrcState where
  ready : Bool
  table : List Nat
  deriving Repr, DecidableEq

/-- CRC state at program start: flag clear, table zero-initialised. -/
def initialCrcState : CrcState :=
  { ready := false, table := List.replicate 256 0 }

/-- `crc16_ccitt(data, len)`: build the table lazily when the ready flag is
clear, then fold over the input from `0xFFFF`; per byte the table index is
`(uint8_t)((crc >> 8) ^ byte)` and `crc = (uint16_t)((crc << 8) ^ table[idx])`. -/
def crc16_ccitt (data : List Nat) (st : CrcState) : Nat × CrcState :=
  let st2 := if st.ready then st else { ready := true, table := prv_crc16_build_table }
  (data.foldl
    (fun crc b =>
      ((crc <<< 8) ^^^ st2.table.getD (((crc >>> 8) ^^^ b) % 256) 0) % 65536)
    0xFFFF, st2)

/-- The checksum value as computed with the properly built table. -/
def crc16_value (data : List Nat) : Nat :=
  (crc16_ccitt data initialCrcState).1

/-- CRC states arising in the module: whenever the ready flag is set, the
table holds the built entries (the flag is only ever set right after a
build, and nothing else writes the table). -/
def goodCrcState (st : CrcState) : Prop :=
  st.ready = true → st.table = prv_crc16_build_table

instance (st : CrcState) : Decidable (goodCrcState st) := by
  unfold goodCrcState; infer_instance

/-- Modelled from the spec: the direct bit-by-bit CRC-16/CCITT-FALSE
reference computation (polynomial 0x1021, initial value 0xFFFF): for each
input byte, XOR it into the high byte of the 16-bit accumulator, then
apply 8 shift steps. -/
def crc16_ref (data : List Nat) : Nat :=
  data.foldl (fun crc b => crcStep^[8] ((crc ^^^ (b <<< 8)) % 65536)) 0xFFFF

/-! ### Ring abstraction lemmas -/

lemma getD_set (l : List Nat) (i j b : Nat) (hi : i < l.length) :
    (l.set i b).getD j 0 = if j = i then b else l.getD j 0 := by
  induction l generalizing i j with
  | nil => simp at hi
  | cons x xs ihl =>
    cases i with
    | zero => cases j <;> simp
    | succ i =>
      cases j with
      | zero => simp
      | succ j =>
        have hi' : i < xs.length := by simpa using hi
        simp only [List.set_cons_succ, List.getD_cons_succ, ihl i j hi']
        by_cases hji : j = i <;> simp [hji]

lemma ringList_length (s : ModuleState) : (ringList s).length = ringCount s := by
  simp [ringList]

lemma ringCount_le (s : ModuleState) (h : Inv s) : ringCount s ≤ s.capacity - 1 := by
  obtain ⟨-, h1, -, hh, ht⟩ := h
  unfold ringCount
  split <;> omega

lemma empty_iff_count (s : ModuleState) (h : Inv s) :
    prv_ring_empty s = true ↔ ringCount s = 0 := by
  obtain ⟨-, h1, -, hh, ht⟩ := h
  simp only [prv_ring_empty, beq_iff_eq, ringCount]
  split <;> omega

lemma full_iff_count (s : ModuleState) (h : Inv s) :
    prv_ring_full s = true ↔ ringCount s = s.capacity - 1 := by
  obtain ⟨-, h1, -, hh, ht⟩ := h
  simp only [prv_ring_full, beq_iff_eq, ringCount]
  rcases Nat.lt_or_ge (s.head + 1) s.capacity with hlt | hge
  · rw [Nat.mod_eq_of_lt hlt]
    split <;> omega
  · have hcap : s.head + 1 = s.capacity := by omega
    rw [hcap, Nat.mod_self]
    split <;> omega

lemma tail_add_count_mod (s : ModuleState) (h : Inv s) :
    (s.tail + ringCount s) % s.capacity = s.head := by
  obtain ⟨-, h1, -, hh, ht⟩ := h
  unfold ringCount
  split
  · rw [show s.tail + (s.head - s.tail) = s.head by omega, Nat.mod_eq_of_lt hh]
  · rw [show s.tail + (s.capacity + s.head - s.tail) = s.capacity + s.head by omega,
      Nat.add_mod_left, Nat.mod_eq_of_lt hh]

lemma index_inj (cap t k j : Nat) (hk : k < cap) (hj : j < cap)
    (h : (t + k) % cap = (t + j) % cap) : k = j := by
  have h1 : k ≡ j [MOD cap] :=
    Nat.ModEq.add_left_cancel' t (show t + k ≡ t + j [MOD cap] from h)
  have h2 : k % cap = j % cap := h1
  rwa [Nat.mod_eq_of_lt hk, Nat.mod_eq_of_lt hj] at h2

lemma ring_push_step (s : ModuleState) (b : Nat) (h : Inv s)
    (hnf : prv_ring_full s = false) :
    Inv (pushedState s b) ∧
    ringCount (pushedState s b) = ringCount s + 1 ∧
    ringList (pushedState s b) = ringList s ++ [b] := by
  obtain ⟨hlen, h1, h2, hh, ht⟩ := h
  have hne : ¬ ((s.head + 1) % s.capacity = s.tail) := by
    simpa [prv_ring_full] using hnf
  have hh' : (s.head + 1) % s.capacity < s.capacity := Nat.mod_lt _ (by omega)
  have hhl : s.head < s.storage.length := by omega
  have hcount' : ringCount (pushedState s b) = ringCount s + 1 := by
    simp only [ringCount, pushedState]
    rcases Nat.lt_or_ge (s.head + 1) s.capacity with hlt | hge
    · rw [Nat.mod_eq_of_lt hlt] at hne ⊢
      split <;> split <;> omega
    · have hcap : s.head + 1 = s.capacity := by omega
      rw [hcap, Nat.mod_self] at hne ⊢
      split <;> split <;> omega
  refine ⟨⟨by simp [pushedState, hlen], h1, h2, by simpa [pushedState] using hh', ht⟩,
    hcount', ?_⟩
  have hInv : Inv s := ⟨hlen, h1, h2, hh, ht⟩
  have hhead := tail_add_count_mod s hInv
  have hcle := ringCount_le s hInv
  have hidx : ∀ k, k < ringCount s → (s.tail + k) % s.capacity ≠ s.head := by
    intro k hk hkeq
    have hk2 : k = ringCount s := by
      refine index_inj s.capacity s.tail k (ringCount s) (by omega) (by omega) ?_
      rw [hkeq, hhead]
    omega
  simp only [ringList]
  rw [hcount', List.range_succ, List.map_append]
  congr 1
  · refine List.map_congr_left ?_
    intro k hk
    have hk' : k < ringCount s := List.mem_range.mp hk
    simp only [pushedState]
    rw [getD_set s.storage s.head ((s.tail + k) % s.capacity) b hhl]
    simp [hidx k hk']
  · simp only [List.map_cons, List.map_nil, pushedState]
    rw [hhead, getD_set s.storage s.head s.head b hhl]
    simp

lemma ring_pop_step (s : ModuleState) (h : Inv s)
    (hne : prv_ring_empty s = false) :
    Inv (poppedState s) ∧
    ringCount s = ringCount (poppedState s) + 1 ∧
    ringList s = s.storage.getD s.tail 0 :: ringList (poppedState s) := by
  obtain ⟨hlen, h1, h2, hh, ht⟩ := h
  have hne' : ¬ (s.head = s.tail) := by
    simpa [prv_ring_empty] using hne
  have ht' : (s.tail + 1) % s.capacity < s.capacity := Nat.mod_lt _ (by omega)
  have hcount' : ringCount s = ringCount (poppedState s) + 1 := by
    simp only [ringCount, poppedState]
    rcases Nat.lt_or_ge (s.tail + 1) s.capacity with hlt | hge
    · rw [Nat.mod_eq_of_lt hlt]
      split <;> split <;> omega
    · have hcap : s.tail + 1 = s.capacity := by omega
      rw [hcap, Nat.mod_self]
      split <;> split <;> omega
  refine ⟨⟨hlen, h1, h2, hh, by simpa [poppedState] using ht'⟩, hcount', ?_⟩
  simp only [ringList]
  rw [hcount', List.range_succ_eq_map, List.map_cons, List.map_map]
  congr 1
  · rw [Nat.add_zero, Nat.mod_eq_of_lt ht]
  · refine List.map_congr_left ?_
    intro k hk
    simp only [Function.comp_apply, Nat.succ_eq_add_one, poppedState]
    rw [Nat.mod_add_mod, show s.tail + 1 + k = s.tail + (k + 1) by omega]

@[simp] lemma pushedState_tail (s : ModuleState) (b : Nat) :
    (pushedState s b).tail = s.tail := rfl

@[simp] lemma pushedState_capacity (s : ModuleState) (b : Nat) :
    (pushedState s b).capacity = s.capacity := rfl

@[simp] lemma pushedState_total_pushed (s : ModuleState) (b : Nat) :
    (pushedState s b).total_pushed = s.total_pushed := rfl

@[simp] lemma pushedState_total_popped (s : ModuleState) (b : Nat) :
    (pushedState s b).total_popped = s.total_popped := rfl

@[simp] lemma pushedState_config_capacity (s : ModuleState) (b : Nat) :
    (pushedState s b).config_capacity = s.config_capacity := rfl

@[simp] lemma poppedState_head (s : ModuleState) : (poppedState s).head = s.head := rfl

@[simp] lemma poppedState_storage (s : ModuleState) :
    (poppedState s).storage = s.storage := rfl

@[simp] lemma poppedState_capacity (s : ModuleState) :
    (poppedState s).capacity = s.capacity := rfl

@[simp] lemma poppedState_total_pushed (s : ModuleState) :
    (poppedState s).total_pushed = s.total_pushed := rfl

@[simp] lemma poppedState_total_popped (s : ModuleState) :
    (poppedState s).total_popped = s.total_popped := rfl

@[simp] lemma poppedState_config_capacity (s : ModuleState) :
    (poppedState s).config_capacity = s.config_capacity := rfl

lemma ring_push_loop_spec (data : List Nat) (s : ModuleState) (h : Inv s) :
    (ring_push_loop data s).1 = min data.length (s.capacity - 1 - ringCount s) ∧
    Inv (ring_push_loop data s).2 ∧
    (ring_push_loop data s).2.capacity = s.capacity ∧
    (ring_push_loop data s).2.tail = s.tail ∧
    (ring_push_loop data s).2.total_pushed = s.total_pushed ∧
    (ring_push_loop data s).2.total_popped = s.total_popped ∧
    (ring_push_loop data s).2.config_capacity = s.config_capacity ∧
    ringCount (ring_push_loop data s).2 = ringCount s + (ring_push_loop data s).1 ∧
    ringList (ring_push_loop data s).2 = ringList s ++ data.take (ring_push_loop data s).1 := by
  induction data generalizing s with
  | nil => simp [ring_push_loop, h]
  | cons b rest ih =>
    by_cases hf : prv_ring_full s = true
    · have hc : ringCount s = s.capacity - 1 := (full_iff_count s h).mp hf
      have hstep : ring_push_loop (b :: rest) s = (0, s) := by
        simp [ring_push_loop, hf]
      rw [hstep]
      refine ⟨by simp; omega, h, rfl, rfl, rfl, rfl, rfl, rfl, by simp⟩
    · have hf' : prv_ring_full s = false := by simpa using hf
      obtain ⟨hInv', hcount', hlist'⟩ := ring_push_step s b h hf'
      rcases hrec : ring_push_loop rest (pushedState s b) with ⟨n, s''⟩
      have ihs := ih (pushedState s b) hInv'
      rw [hrec] at ihs
      simp only [pushedState_capacity, pushedState_tail, pushedState_total_pushed,
        pushedState_total_popped, pushedState_config_capacity, hcount'] at ihs
      obtain ⟨ih1, ih2, ih3, ih4, ih5, ih6, ih7, ih8, ih9⟩ := ihs
      have hstep : ring_push_loop (b :: rest) s = (n + 1, s'') := by
        simp [ring_push_loop, hf', hrec]
      rw [hstep]
      have hcle := ringCount_le s h
      have hcnt_ne : ringCount s ≠ s.capacity - 1 := by
        intro hc
        rw [(full_iff_count s h).mpr hc] at hf'
        simp at hf'
      have h1cap : 1 ≤ s.capacity := h.2.1
      refine ⟨by simp; omega, ih2, ih3, ih4, ih5, ih6, ih7, by simp; omega, ?_⟩
      rw [ih9, hlist', List.take_succ_cons, List.append_assoc, List.singleton_append]

lemma ring_pop_loop_spec (n : Nat) (s : ModuleState) (h : Inv s) :
    (ring_pop_loop n s).1 = (ringList s).take n ∧
    Inv (ring_pop_loop n s).2 ∧
    (ring_pop_loop n s).2.capacity = s.capacity ∧
    (ring_pop_loop n s).2.head = s.head ∧
    (ring_pop_loop n s).2.storage = s.storage ∧
    (ring_pop_loop n s).2.total_pushed = s.total_pushed ∧
    (ring_pop_loop n s).2.total_popped = s.total_popped ∧
    (ring_pop_loop n s).2.config_capacity = s.config_capacity ∧
    ringList (ring_pop_loop n s).2 = (ringList s).drop n := by
  induction n generalizing s with
  | zero => simp [ring_pop_loop, h]
  | succ n ih =>
    by_cases he : prv_ring_empty s = true
    · have hc : ringCount s = 0 := (empty_iff_count s h).mp he
      have hnil : ringList s = [] := by
        have hl := ringList_length s
        rw [hc] at hl
        exact List.eq_nil_of_length_eq_zero hl
      have hstep : ring_pop_loop (n + 1) s = ([], s) := by
        simp [ring_pop_loop, he]
      rw [hstep]
      simp [hnil, h]
    · have he' : prv_ring_empty s = false := by simpa using he
      obtain ⟨hInv', hcount', hlist'⟩ := ring_pop_step s h he'
      rcases hrec : ring_pop_loop n (poppedState s) with ⟨bs, s''⟩
      have ihs := ih (poppedState s) hInv'
      rw [hrec] at ihs
      simp only [poppedState_capacity, poppedState_head, poppedState_storage,
        poppedState_total_pushed, poppedState_total_popped,
        poppedState_config_capacity] at ihs
      obtain ⟨ih1, ih2, ih3, ih4, ih5, ih6, ih7, ih8, ih9⟩ := ihs
      have hstep : ring_pop_loop (n + 1) s = (s.storage.getD s.tail 0 :: bs, s'') := by
        simp [ring_pop_loop, he', hrec]
      rw [hstep]
      rw [hlist']
      refine ⟨?_, ih2, ih3, ih4, ih5, ih6, ih7, ih8, ?_⟩
      · rw [List.take_succ_cons, ih1]
      · rw [List.drop_succ_cons, ih9]

lemma ring_push_spec (data : List Nat) (s : ModuleState) (h : Inv s) :
    (ring_push data s).1 = min data.length (s.capacity - 1 - ringCount s) ∧
    Inv (ring_push data s).2 ∧
    (ring_push data s).2.capacity = s.capacity ∧
    (ring_push data s).2.config_capacity = s.config_capacity ∧
    (ring_push data s).2.total_pushed = s.total_pushed + (ring_push data s).1 ∧
    (ring_push data s).2.total_popped = s.total_popped ∧
    ringCount (ring_push data s).2 = ringCount s + (ring_push data s).1 ∧
    ringList (ring_push data s).2 = ringList s ++ data.take (ring_push data s).1 := by
  rcases data with - | ⟨b, rest⟩
  · simp [ring_push, h]
  · rcases hrec : ring_push_loop (b :: rest) s with ⟨n, s'⟩
    have hspec := ring_push_loop_spec (b :: rest) s h
    rw [hrec] at hspec
    dsimp only at hspec
    obtain ⟨h1, h2, h3, h4, h5, h6, h7, h8, h9⟩ := hspec
    have hpush : ring_push (b :: rest) s =
        (n, { s' with total_pushed := s'.total_pushed + n }) := by
      simp [ring_push, hrec]
    rw [hpush]
    exact ⟨h1, h2, h3, h7, by rw [h5], h6, h8, h9⟩

lemma ring_pop_spec (n : Nat) (s : ModuleState) (h : Inv s) :
    (ring_pop n s).1 = (ringList s).take n ∧
    Inv (ring_pop n s).2 ∧
    (ring_pop n s).2.capacity = s.capacity ∧
    (ring_pop n s).2.config_capacity = s.config_capacity ∧
    (ring_pop n s).2.head = s.head ∧
    (ring_pop n s).2.total_pushed = s.total_pushed ∧
    (ring_pop n s).2.total_popped = s.total_popped + ((ringList s).take n).length ∧
    ringCount (ring_pop n s).2 = ringCount s - min n (ringCount s) ∧
    ringList (ring_pop n s).2 = (ringList s).drop n := by
  rcases n with - | n
  · simp [ring_pop, h]
  · rcases hrec : ring_pop_loop (n + 1) s with ⟨bs, s'⟩
    have hspec := ring_pop_loop_spec (n + 1) s h
    rw [hrec] at hspec
    dsimp only at hspec
    obtain ⟨h1, h2, h3, h4, h5, h6, h7, h8, h9⟩ := hspec
    have hpop : ring_pop (n + 1) s =
        (bs, { s' with total_popped := s'.total_popped + bs.length }) := by
      simp [ring_pop, hrec]
    rw [hpop]
    have hcnt : ringCount s' = ringCount s - min (n + 1) (ringCount s) := by
      have hl := ringList_length s'
      rw [h9] at hl
      have hls := ringList_length s
      simp [List.length_drop] at hl
      omega
    exact ⟨h1, h2, h3, h8, h4, h6, by rw [h7, h1], hcnt, h9⟩

/-! ### Step and run lemmas -/

lemma step_inv (op : Op) (s : ModuleState) (h : Inv s) : Inv (step op s) := by
  cases op with
  | setConfig c =>
    by_cases hc : c = 0 ∨ c > 1024
    · simpa [step, module_set_config, hc] using h
    · have hr : step (Op.setConfig c) s =
          { s with config_capacity := c, capacity := c, head := 0, tail := 0 } := by
        simp [step, module_set_config, hc]
      rw [hr]
      exact ⟨h.1, show 1 ≤ c by omega, show c ≤ 1024 by omega,
        show 0 < c by omega, show 0 < c by omega⟩
  | initConfig cfg =>
    by_cases hc : cfg.getD s.config_capacity = 0 ∨ cfg.getD s.config_capacity > 1024
    · simpa [step, module_init, hc] using h
    · have hr : step (Op.initConfig cfg) s = { s with
          config_capacity := cfg.getD s.config_capacity,
          capacity := cfg.getD s.config_capacity, head := 0, tail := 0 } := by
        simp [step, module_init, hc]
      rw [hr]
      exact ⟨h.1, show 1 ≤ cfg.getD s.config_capacity by omega,
        show cfg.getD s.config_capacity ≤ 1024 by omega,
        show 0 < cfg.getD s.config_capacity by omega,
        show 0 < cfg.getD s.config_capacity by omega⟩
  | reset =>
    exact ⟨h.1, h.2.1, h.2.2.1, show 0 < s.capacity from h.2.1,
      show 0 < s.capacity from h.2.1⟩
  | push data => exact (ring_push_spec data s h).2.1
  | pop len => exact (ring_pop_spec len s h).2.1

lemma run_inv (ops : List Op) (s : ModuleState) (h : Inv s) : Inv (run ops s) := by
  induction ops generalizing s with
  | nil => exact h
  | cons op rest ih => exact ih (step op s) (step_inv op s h)

lemma ring_push_loop_counters (data : List Nat) (s : ModuleState) :
    (ring_push_loop data s).2.total_pushed = s.total_pushed ∧
    (ring_push_loop data s).2.total_popped = s.total_popped := by
  induction data generalizing s with
  | nil => exact ⟨rfl, rfl⟩
  | cons b rest ih =>
    by_cases hf : prv_ring_full s = true
    · simp [ring_push_loop, hf]
    · have hf' : prv_ring_full s = false := by simpa using hf
      rcases hrec : ring_push_loop rest (pushedState s b) with ⟨n, s2⟩
      have ihx := ih (pushedState s b)
      rw [hrec] at ihx
      simp only [pushedState_total_pushed, pushedState_total_popped] at ihx
      have hstep : ring_push_loop (b :: rest) s = (n + 1, s2) := by
        simp [ring_push_loop, hf', hrec]
      rw [hstep]
      exact ihx

lemma ring_pop_loop_counters (n : Nat) (s : ModuleState) :
    (ring_pop_loop n s).2.total_pushed = s.total_pushed ∧
    (ring_pop_loop n s).2.total_popped = s.total_popped := by
  induction n generalizing s with
  | zero => exact ⟨rfl, rfl⟩
  | succ n ih =>
    by_cases he : prv_ring_empty s = true
    · simp [ring_pop_loop, he]
    · have he' : prv_ring_empty s = false := by simpa using he
      rcases hrec : ring_pop_loop n (poppedState s) with ⟨bs, s2⟩
      have ihx := ih (poppedState s)
      rw [hrec] at ihx
      simp only [poppedState_total_pushed, poppedState_total_popped] at ihx
      have hstep : ring_pop_loop (n + 1) s = (s.storage.getD s.tail 0 :: bs, s2) := by
        simp [ring_pop_loop, he', hrec]
      rw [hstep]
      exact ihx

lemma ring_push_counters (data : List Nat) (s : ModuleState) :
    s.total_pushed ≤ (ring_push data s).2.total_pushed ∧
    (ring_push data s).2.total_popped = s.total_popped := by
  rcases data with - | ⟨b, rest⟩
  · simp [ring_push]
  · rcases hrec : ring_push_loop (b :: rest) s with ⟨n, s2⟩
    have hcnt := ring_push_loop_counters (b :: rest) s
    rw [hrec] at hcnt
    dsimp only at hcnt
    have hpush : ring_push (b :: rest) s =
        (n, { s2 with total_pushed := s2.total_pushed + n }) := by
      simp [ring_push, hrec]
    rw [hpush]
    exact ⟨by dsimp only; omega, hcnt.2⟩

lemma ring_pop_counters (len : Nat) (s : ModuleState) :
    (ring_pop len s).2.total_pushed = s.total_pushed ∧
    s.total_popped ≤ (ring_pop len s).2.total_popped := by
  rcases len with - | n
  · simp [ring_pop]
  · rcases hrec : ring_pop_loop (n + 1) s with ⟨bs, s2⟩
    have hcnt := ring_pop_loop_counters (n + 1) s
    rw [hrec] at hcnt
    dsimp only at hcnt
    have hpop : ring_pop (n + 1) s =
        (bs, { s2 with total_popped := s2.total_popped + bs.length }) := by
      simp [ring_pop, hrec]
    rw [hpop]
    exact ⟨hcnt.1, by dsimp only; omega⟩

lemma configured_spec (c : Nat) (h1 : 1 ≤ c) (h2 : c ≤ 1024) :
    Inv (configuredState c) ∧ (configuredState c).capacity = c ∧
    ringCount (configuredState c) = 0 ∧ ringList (configuredState c) = [] ∧
    (configuredState c).total_pushed = 0 ∧ (configuredState c).total_popped = 0 := by
  have hc : ¬ (c = 0 ∨ c > 1024) := by omega
  have he : configuredState c =
      { initialState with config_capacity := c, capacity := c, head := 0, tail := 0 } := by
    simp [configuredState, module_set_config, hc]
  rw [he]
  refine ⟨⟨show (List.replicate 1024 0).length = 1024 by rw [List.length_replicate],
    show 1 ≤ c by omega, show c ≤ 1024 by omega,
    show 0 < c by omega, show 0 < c by omega⟩, rfl, by simp [ringCount],
    by simp [ringList, ringCount], rfl, rfl⟩

lemma run_pushpop_capacity (ops : List Op) (s : ModuleState) (h : Inv s)
    (hops : ∀ op ∈ ops, op.isPushPop = true) :
    (run ops s).capacity = s.capacity := by
  induction ops generalizing s with
  | nil => rfl
  | cons op rest ih =>
    have hop := hops op (List.mem_cons_self op rest)
    have hrest : ∀ o ∈ rest, o.isPushPop = true :=
      fun o ho => hops o (List.mem_cons_of_mem _ ho)
    have hstep : (step op s).capacity = s.capacity := by
      cases op with
      | push d => exact (ring_push_spec d s h).2.2.1
      | pop n => exact (ring_pop_spec n s h).2.2.1
      | setConfig c => simp [Op.isPushPop] at hop
      | initConfig cfg => simp [Op.isPushPop] at hop
      | reset => simp [Op.isPushPop] at hop
    exact (ih (step op s) (step_inv op s h) hrest).trans hstep

/-! ### Conservation with discard accounting -/

lemma stepD_conservation (op : Op) (s : ModuleState) (d : Nat) (h : Inv s)
    (hc : s.total_pushed = s.total_popped + ringCount s + d) (hop : op ≠ Op.reset) :
    Inv (stepD op (s, d)).1 ∧
    (stepD op (s, d)).1.total_pushed =
      (stepD op (s, d)).1.total_popped + ringCount (stepD op (s, d)).1 +
        (stepD op (s, d)).2 := by
  cases op with
  | reset => exact absurd rfl hop
  | setConfig c =>
    by_cases hcfg : c = 0 ∨ c > 1024
    · have he : stepD (Op.setConfig c) (s, d) = (s, d) := by
        simp [stepD, module_set_config, hcfg]
      rw [he]
      exact ⟨h, hc⟩
    · have he : stepD (Op.setConfig c) (s, d) =
        ({ s with config_capacity := c, capacity := c, head := 0, tail := 0 }, d + ringCount s) := by
        simp [stepD, module_set_config, hcfg]
      rw [he]
      have hcnt0 :
          ringCount { s with config_capacity := c, capacity := c, head := 0, tail := 0 } = 0 := by
        simp [ringCount]
      refine ⟨⟨h.1, show 1 ≤ c by omega, show c ≤ 1024 by omega,
        show 0 < c by omega, show 0 < c by omega⟩, ?_⟩
      show s.total_pushed = s.total_popped +
        ringCount { s with config_capacity := c, capacity := c, head := 0, tail := 0 } +
          (d + ringCount s)
      rw [hcnt0]
      omega
  | initConfig cfg =>
    by_cases hcfg : cfg.getD s.config_capacity = 0 ∨ cfg.getD s.config_capacity > 1024
    · have he : stepD (Op.initConfig cfg) (s, d) = (s, d) := by
        simp [stepD, module_init, hcfg]
      rw [he]
      exact ⟨h, hc⟩
    · have he : stepD (Op.initConfig cfg) (s, d) =
        ({ s with config_capacity := cfg.getD s.config_capacity, capacity := cfg.getD s.config_capacity, head := 0, tail := 0 }, d + ringCount s) := by
        simp [stepD, module_init, hcfg]
      rw [he]
      have hcnt0 :
          ringCount { s with config_capacity := cfg.getD s.config_capacity, capacity := cfg.getD s.config_capacity, head := 0, tail := 0 } = 0 := by
        simp [ringCount]
      refine ⟨⟨h.1, show 1 ≤ cfg.getD s.config_capacity by omega,
        show cfg.getD s.config_capacity ≤ 1024 by omega,
        show 0 < cfg.getD s.config_capacity by omega,
        show 0 < cfg.getD s.config_capacity by omega⟩, ?_⟩
      show s.total_pushed = s.total_popped +
        ringCount { s with config_capacity := cfg.getD s.config_capacity, capacity := cfg.getD s.config_capacity, head := 0, tail := 0 } +
          (d + ringCount s)
      rw [hcnt0]
      omega
  | push data =>
    obtain ⟨p1, p2, p3, p4, p5, p6, p7, p8⟩ := ring_push_spec data s h
    refine ⟨p2, ?_⟩
    show (ring_push data s).2.total_pushed =
      (ring_push data s).2.total_popped + ringCount (ring_push data s).2 + d
    rw [p5, p6, p7]
    omega
  | pop len =>
    obtain ⟨q1, q2, q3, q4, q5, q6, q7, q8, q9⟩ := ring_pop_spec len s h
    refine ⟨q2, ?_⟩
    show (ring_pop len s).2.total_pushed =
      (ring_pop len s).2.total_popped + ringCount (ring_pop len s).2 + d
    rw [q6, q7, q8]
    have hlt : ((ringList s).take len).length = min len (ringCount s) := by
      rw [List.length_take, ringList_length]
    omega

lemma runD_conservation (ops : List Op) :
    ∀ (s : ModuleState) (d : Nat), Inv s →
      s.total_pushed = s.total_popped + ringCount s + d →
      (∀ op ∈ ops, op ≠ Op.reset) →
      Inv (runD ops (s, d)).1 ∧
      (runD ops (s, d)).1.total_pushed =
        (runD ops (s, d)).1.total_popped + ringCount (runD ops (s, d)).1 +
          (runD ops (s, d)).2 := by
  induction ops with
  | nil => exact fun s d h hc _ => ⟨h, hc⟩
  | cons op rest ih =>
    intro s d h hc hops
    have hop := hops op (List.mem_cons_self op rest)
    have hrest : ∀ o ∈ rest, o ≠ Op.reset :=
      fun o ho => hops o (List.mem_cons_of_mem _ ho)
    obtain ⟨h1, h2⟩ := stepD_conservation op s d h hc hop
    have hrun : runD (op :: rest) (s, d) = runD rest (stepD op (s, d)) := rfl
    rw [hrun]
    rcases hsd : stepD op (s, d) with ⟨s1, d1⟩
    rw [hsd] at h1 h2
    exact ih s1 d1 h1 h2 hrest

/-! ### Checked operations agree with the total semantics on configured states -/

lemma ring_push_loop_eq (data : List Nat) :
    ∀ s : ModuleState, Inv s →
      ring_push_loop? data s = some (ring_push_loop data s) := by
  induction data with
  | nil => exact fun s _ => rfl
  | cons b rest ih =>
    intro s h
    have hcap : ¬ (s.capacity = 0) := by
      have := h.2.1
      omega
    have hfq : prv_ring_full? s = some (prv_ring_full s) := by
      simp [prv_ring_full?, prv_ring_full, mod?, hcap]
    have hidx : s.head < s.storage.length := by
      obtain ⟨hl, -, h2, hh, -⟩ := h
      omega
    by_cases hf : prv_ring_full s = true
    · simp [ring_push_loop?, ring_push_loop, hfq, hf]
    · have hf' : prv_ring_full s = false := by simpa using hf
      obtain ⟨hInv', -, -⟩ := ring_push_step s b h hf'
      have ihx := ih (pushedState s b) hInv'
      rcases hrec : ring_push_loop rest (pushedState s b) with ⟨n, s2⟩
      rw [hrec] at ihx
      simp only [pushedState] at ihx hrec
      simp [ring_push_loop?, ring_push_loop, hfq, hf', hidx, mod?, hcap,
        pushedState, ihx, hrec]

lemma ring_pop_loop_eq (len : Nat) :
    ∀ s : ModuleState, Inv s →
      ring_pop_loop? len s = some (ring_pop_loop len s) := by
  induction len with
  | zero => exact fun s _ => rfl
  | succ n ih =>
    intro s h
    have hcap : ¬ (s.capacity = 0) := by
      have := h.2.1
      omega
    have hidx : s.tail < s.storage.length := by
      obtain ⟨hl, -, h2, -, ht⟩ := h
      omega
    by_cases he : prv_ring_empty s = true
    · simp [ring_pop_loop?, ring_pop_loop, he]
    · have he' : prv_ring_empty s = false := by simpa using he
      obtain ⟨hInv', -, -⟩ := ring_pop_step s h he'
      have ihx := ih (poppedState s) hInv'
      rcases hrec : ring_pop_loop n (poppedState s) with ⟨bs, s2⟩
      rw [hrec] at ihx
      simp only [poppedState] at ihx hrec
      simp [ring_pop_loop?, ring_pop_loop, he', hidx, mod?, hcap,
        poppedState, ihx, hrec]

lemma ring_push_eq (data : List Nat) (s : ModuleState) (h : Inv s) :
    ring_push? data s = some (ring_push data s) := by
  rcases data with - | ⟨b, rest⟩
  · rfl
  · have hl := ring_push_loop_eq (b :: rest) s h
    rcases hrec : ring_push_loop (b :: rest) s with ⟨n, s2⟩
    rw [hrec] at hl
    simp [ring_push?, ring_push, hl, hrec]

lemma ring_pop_eq (len : Nat) (s : ModuleState) (h : Inv s) :
    ring_pop? len s = some (ring_pop len s) := by
  rcases len with - | n
  · rfl
  · have hl := ring_pop_loop_eq (n + 1) s h
    rcases hrec : ring_pop_loop (n + 1) s with ⟨bs, s2⟩
    rw [hrec] at hl
    simp [ring_pop?, ring_pop, hl, hrec]

/-! ### CRC16 lemmas -/

lemma xor_mod_two_pow (a b n : Nat) :
    (a ^^^ b) % 2 ^ n = a % 2 ^ n ^^^ b % 2 ^ n := by
  apply Nat.eq_of_testBit_eq
  intro i
  simp [Nat.testBit_mod_two_pow, Nat.testBit_xor, Bool.and_xor_distrib_left]

lemma xor_shiftLeft (a b i : Nat) : (a ^^^ b) <<< i = a <<< i ^^^ b <<< i := by
  apply Nat.eq_of_testBit_eq
  intro j
  simp [Nat.testBit_shiftLeft, Nat.testBit_xor, Bool.and_xor_distrib_left]

lemma xor_right_comm (a p c : Nat) : (a ^^^ p) ^^^ c = (a ^^^ c) ^^^ p := by
  rw [Nat.xor_assoc, Nat.xor_comm p c, ← Nat.xor_assoc]

lemma xor_xor_cancel (a b p : Nat) : (a ^^^ p) ^^^ (b ^^^ p) = a ^^^ b := by
  rw [Nat.xor_assoc, Nat.xor_comm b p, ← Nat.xor_assoc p p b, Nat.xor_self,
    Nat.zero_xor]

lemma crcStep_testBit (crc : Nat) :
    crcStep crc = if crc.testBit 15 then ((crc <<< 1) ^^^ 0x1021) % 65536
      else (crc <<< 1) % 65536 := by
  have h : crc &&& 0x8000 = (crc.testBit 15).toNat * 32768 := by
    have hh := Nat.and_two_pow crc 15
    norm_num at hh
    exact hh
  unfold crcStep
  rw [h]
  cases hb : crc.testBit 15 <;> simp [hb]

lemma crcStep_true {crc : Nat} (h : crc.testBit 15 = true) :
    crcStep crc = ((crc <<< 1) ^^^ 0x1021) % 65536 := by
  simp [crcStep_testBit, h]

lemma crcStep_false {crc : Nat} (h : crc.testBit 15 = false) :
    crcStep crc = (crc <<< 1) % 65536 := by
  simp [crcStep_testBit, h]

lemma crcStep_linear (x y : Nat) : crcStep (x ^^^ y) = crcStep x ^^^ crcStep y := by
  have h16 : (65536 : Nat) = 2 ^ 16 := by norm_num
  cases hx : x.testBit 15 <;> cases hy : y.testBit 15
  · have hxy : (x ^^^ y).testBit 15 = false := by simp [Nat.testBit_xor, hx, hy]
    rw [crcStep_false hxy, crcStep_false hx, crcStep_false hy,
      h16, ← xor_mod_two_pow, ← xor_shiftLeft]
  · have hxy : (x ^^^ y).testBit 15 = true := by simp [Nat.testBit_xor, hx, hy]
    rw [crcStep_true hxy, crcStep_false hx, crcStep_true hy,
      h16, ← xor_mod_two_pow, ← Nat.xor_assoc, ← xor_shiftLeft]
  · have hxy : (x ^^^ y).testBit 15 = true := by simp [Nat.testBit_xor, hx, hy]
    rw [crcStep_true hxy, crcStep_true hx, crcStep_false hy,
      h16, ← xor_mod_two_pow, xor_right_comm, ← xor_shiftLeft]
  · have hxy : (x ^^^ y).testBit 15 = false := by simp [Nat.testBit_xor, hx, hy]
    rw [crcStep_false hxy, crcStep_true hx, crcStep_true hy,
      h16, ← xor_mod_two_pow, xor_xor_cancel, ← xor_shiftLeft]

lemma crcStep_iterate_linear (k x y : Nat) :
    crcStep^[k] (x ^^^ y) = crcStep^[k] x ^^^ crcStep^[k] y := by
  induction k with
  | zero => rfl
  | succ k ih =>
    rw [Function.iterate_succ_apply', Function.iterate_succ_apply',
      Function.iterate_succ_apply', ih, crcStep_linear]

lemma byte_shiftLeft_lt (lo k m : Nat) (hlo : lo < 256) (hkm : 8 + k ≤ m) :
    lo <<< k < 2 ^ m := by
  rw [Nat.shiftLeft_eq]
  have h1 : lo * 2 ^ k < 256 * 2 ^ k :=
    (mul_lt_mul_right (pow_pos (by norm_num) k)).mpr hlo
  have h2 : (256 : Nat) * 2 ^ k = 2 ^ (8 + k) := by
    rw [pow_add]
    norm_num
  have h3 : (2 : Nat) ^ (8 + k) ≤ 2 ^ m := Nat.pow_le_pow_right (by norm_num) hkm
  omega

lemma crcStep_lt (x : Nat) : crcStep x < 65536 := by
  unfold crcStep
  split <;> exact Nat.mod_lt _ (by norm_num)

lemma crcStep_iterate_lt (x : Nat) : crcStep^[8] x < 65536 := by
  rw [show (8 : Nat) = 7 + 1 from rfl, Function.iterate_succ_apply']
  exact crcStep_lt _

lemma crcStep_iterate_low (k : Nat) (hk : k ≤ 8) (lo : Nat) (hlo : lo < 256) :
    crcStep^[k] lo = lo <<< k := by
  induction k with
  | zero => simp
  | succ k ih =>
    have hk' : k ≤ 8 := by omega
    rw [Function.iterate_succ_apply', ih hk']
    have hb : (lo <<< k).testBit 15 = false :=
      Nat.testBit_lt_two_pow (byte_shiftLeft_lt lo k 15 hlo (by omega))
    rw [crcStep_false hb]
    have hss : (lo <<< k) <<< 1 = lo <<< (k + 1) := by
      rw [Nat.shiftLeft_eq, Nat.shiftLeft_eq, Nat.shiftLeft_eq, pow_succ]
      ring
    rw [hss]
    have hlt : lo <<< (k + 1) < 65536 := by
      have hx := byte_shiftLeft_lt lo (k + 1) 16 hlo (by omega)
      norm_num at hx
      exact hx
    exact Nat.mod_eq_of_lt hlt

lemma crc_decomp (crc : Nat) : ((crc >>> 8) <<< 8) ^^^ (crc % 256) = crc := by
  apply Nat.eq_of_testBit_eq
  intro i
  have h256 : (256 : Nat) = 2 ^ 8 := by norm_num
  rw [Nat.testBit_xor, Nat.testBit_shiftLeft, Nat.testBit_shiftRight, h256,
    Nat.testBit_mod_two_pow]
  by_cases hi : 8 ≤ i
  · have hi2 : ¬ (i < 8) := by omega
    simp [hi, hi2, Nat.add_sub_cancel' hi]
  · have hi2 : i < 8 := by omega
    simp [hi, hi2]

lemma shiftRight8_lt (crc : Nat) (h : crc < 65536) : crc >>> 8 < 256 := by
  rw [Nat.shiftRight_eq_div_pow]
  norm_num
  omega

lemma build_table_getD (j : Nat) (hj : j < 256) :
    prv_crc16_build_table.getD j 0 = crc16_table_entry j := by
  unfold prv_crc16_build_table
  rw [List.getD_eq_getElem _ _ (by simpa using hj)]
  rw [List.getElem_map, List.getElem_range]

lemma crc_byte_step (crc b : Nat) (hcrc : crc < 65536) (hb : b < 256) :
    ((crc <<< 8) ^^^ prv_crc16_build_table.getD (((crc >>> 8) ^^^ b) % 256) 0) % 65536
      = crcStep^[8] ((crc ^^^ (b <<< 8)) % 65536) := by
  have h16 : (65536 : Nat) = 2 ^ 16 := by norm_num
  have h256 : (256 : Nat) = 2 ^ 8 := by norm_num
  have hhi : crc >>> 8 < 256 := shiftRight8_lt crc hcrc
  have hlo : crc % 256 < 256 := Nat.mod_lt _ (by norm_num)
  have hj : (crc >>> 8) ^^^ b < 256 := by
    rw [h256]
    exact Nat.xor_lt_two_pow (h256 ▸ hhi) (h256 ▸ hb)
  have hb16 : b <<< 8 < 65536 := by
    have hx := byte_shiftLeft_lt b 8 16 hb (by omega)
    norm_num at hx
    exact hx
  have hx16 : crc ^^^ (b <<< 8) < 65536 := by
    rw [h16]
    exact Nat.xor_lt_two_pow (h16 ▸ hcrc) (h16 ▸ hb16)
  have hj16 : ((crc >>> 8) ^^^ b) <<< 8 < 65536 := by
    have hx := byte_shiftLeft_lt _ 8 16 hj (by omega)
    norm_num at hx
    exact hx
  rw [Nat.mod_eq_of_lt hj, build_table_getD _ hj, Nat.mod_eq_of_lt hx16]
  unfold crc16_table_entry
  rw [Nat.mod_eq_of_lt hj16]
  -- decompose the accumulator on the right-hand side
  conv_rhs => rw [← crc_decomp crc]
  -- ((hi <<< 8) ^^^ lo) ^^^ (b <<< 8) = ((hi ^^^ b) <<< 8) ^^^ lo
  rw [xor_right_comm, ← xor_shiftLeft, crcStep_iterate_linear,
    crcStep_iterate_low 8 (by omega) (crc % 256) hlo]
  -- left: ((crc <<< 8) ^^^ E) % 2^16 = (lo <<< 8) ^^^ E
  have hE : crcStep^[8] (((crc >>> 8) ^^^ b) <<< 8) < 65536 := crcStep_iterate_lt _
  have hcl : (crc <<< 8) % 65536 = (crc % 256) <<< 8 := by
    conv_lhs => rw [← crc_decomp crc]
    rw [xor_shiftLeft, h16, xor_mod_two_pow]
    have hz : ((crc >>> 8) <<< 8) <<< 8 % 2 ^ 16 = 0 := by
      rw [Nat.shiftLeft_eq, Nat.shiftLeft_eq]
      have hm : crc >>> 8 * 2 ^ 8 * 2 ^ 8 = crc >>> 8 * 2 ^ 16 := by ring
      rw [hm, Nat.mul_mod_left]
    have hlo8 : (crc % 256) <<< 8 % 2 ^ 16 = (crc % 256) <<< 8 := by
      apply Nat.mod_eq_of_lt
      exact byte_shiftLeft_lt _ 8 16 hlo (by omega)
    rw [hz, hlo8, Nat.zero_xor]
  rw [h16, xor_mod_two_pow, ← h16, hcl]
  rw [Nat.mod_eq_of_lt hE]
  rw [Nat.xor_comm]

lemma crc_fold_eq (data : List Nat) :
    ∀ crc, crc < 65536 → (∀ b ∈ data, b < 256) →
      data.foldl (fun crc b =>
        ((crc <<< 8) ^^^
          prv_crc16_build_table.getD (((crc >>> 8) ^^^ b) % 256) 0) % 65536) crc =
      data.foldl (fun crc b => crcStep^[8] ((crc ^^^ (b <<< 8)) % 65536)) crc := by
  induction data with
  | nil => exact fun crc _ _ => rfl
  | cons b rest ih =>
    intro crc h hbs
    rw [List.foldl_cons, List.foldl_cons, crc_byte_step crc b h (hbs b (by simp))]
    exact ih _ (crcStep_iterate_lt _) (fun x hx => hbs x (by simp [hx]))

lemma crc16_value_fold (data : List Nat) :
    crc16_value data = data.foldl (fun crc b =>
      ((crc <<< 8) ^^^
        prv_crc16_build_table.getD (((crc >>> 8) ^^^ b) % 256) 0) % 65536) 0xFFFF := rfl

lemma crc16_ccitt_good (data : List Nat) (st : CrcState) (h : goodCrcState st) :
    (crc16_ccitt data st).1 = crc16_value data ∧
    goodCrcState (crc16_ccitt data st).2 := by
  cases hr : st.ready
  · constructor
    · rw [crc16_value_fold]
      simp [crc16_ccitt, hr]
    · simp [crc16_ccitt, goodCrcState, hr]
  · have ht := h hr
    constructor
    · rw [crc16_value_fold]
      simp [crc16_ccitt, hr, ht]
    · simpa [crc16_ccitt, hr] using h

/-! ### The claims -/

/-- C1: for every configured capacity `c` with `1 ≤ c ≤ 1024` and every
sequence of push/pop calls from the empty configured state, `head == tail`
holds iff the buffer holds zero bytes, the full predicate
`(head + 1) % capacity == tail` holds iff the buffer holds exactly
`capacity - 1` bytes, and `head` and `tail` lie in `[0, capacity)`. -/
theorem claim_C1 (c : Nat) (h1 : 1 ≤ c) (h2 : c ≤ 1024) (ops : List Op)
    (hops : ∀ op ∈ ops, op.isPushPop = true) :
    (prv_ring_empty (run ops (configuredState c)) = true ↔
      (ringList (run ops (configuredState c))).length = 0) ∧
    (prv_ring_full (run ops (configuredState c)) = true ↔
      (ringList (run ops (configuredState c))).length =
        (run ops (configuredState c)).capacity - 1) ∧
    (run ops (configuredState c)).head < (run ops (configuredState c)).capacity ∧
    (run ops (configuredState c)).tail < (run ops (configuredState c)).capacity := by
  have hI : Inv (run ops (configuredState c)) :=
    run_inv ops (configuredState c) (configured_spec c h1 h2).1
  refine ⟨?_, ?_, hI.2.2.2.1, hI.2.2.2.2⟩
  · rw [ringList_length]
    exact empty_iff_count _ hI
  · rw [ringList_length]
    exact full_iff_count _ hI

set_option maxRecDepth 100000 in
/-- Witness for C1 at capacity 2 and the call sequence push [5]; pop 1. -/
theorem claim_C1_witness :
    (prv_ring_empty (run [Op.push [5], Op.pop 1] (configuredState 2)) = true ↔
      (ringList (run [Op.push [5], Op.pop 1] (configuredState 2))).length = 0) ∧
    (prv_ring_full (run [Op.push [5], Op.pop 1] (configuredState 2)) = true ↔
      (ringList (run [Op.push [5], Op.pop 1] (configuredState 2))).length =
        (run [Op.push [5], Op.pop 1] (configuredState 2)).capacity - 1) ∧
    (run [Op.push [5], Op.pop 1] (configuredState 2)).head <
      (run [Op.push [5], Op.pop 1] (configuredState 2)).capacity ∧
    (run [Op.push [5], Op.pop 1] (configuredState 2)).tail <
      (run [Op.push [5], Op.pop 1] (configuredState 2)).capacity :=
  claim_C1 2 (by decide) (by decide) [Op.push [5], Op.pop 1] (by decide)

/-- C2: pushing a byte sequence of length at most `capacity - 1` into the
empty configured buffer pushes it whole, and popping that many bytes
returns exactly the sequence, in order, leaving the buffer empty. -/
theorem claim_C2 (c : Nat) (h1 : 1 ≤ c) (h2 : c ≤ 1024) (data : List Nat)
    (hlen : data.length ≤ c - 1) :
    (ring_push data (configuredState c)).1 = data.length ∧
    (ring_pop data.length (ring_push data (configuredState c)).2).1 = data ∧
    prv_ring_empty (ring_pop data.length (ring_push data (configuredState c)).2).2 = true ∧
    ringList (ring_pop data.length (ring_push data (configuredState c)).2).2 = [] := by
  obtain ⟨hI, hcap, hcnt, hlist, -, -⟩ := configured_spec c h1 h2
  obtain ⟨p1, p2, p3, p4, p5, p6, p7, p8⟩ := ring_push_spec data (configuredState c) hI
  have hn : (ring_push data (configuredState c)).1 = data.length := by
    rw [p1, hcap, hcnt]
    omega
  have hl1 : ringList (ring_push data (configuredState c)).2 = data := by
    rw [p8, hn, hlist, List.take_length, List.nil_append]
  have hc1 : ringCount (ring_push data (configuredState c)).2 = data.length := by
    rw [p7, hcnt, hn]
    omega
  obtain ⟨q1, q2, q3, q4, q5, q6, q7, q8, q9⟩ :=
    ring_pop_spec data.length (ring_push data (configuredState c)).2 p2
  refine ⟨hn, ?_, ?_, ?_⟩
  · rw [q1, hl1, List.take_length]
  · rw [empty_iff_count _ q2, q8, hc1]
    omega
  · rw [q9, hl1, List.drop_length]

set_option maxRecDepth 100000 in
/-- Witness for C2 at capacity 4 and data [1, 2, 3]. -/
theorem claim_C2_witness :
    (ring_push [1, 2, 3] (configuredState 4)).1 = 3 ∧
    (ring_pop 3 (ring_push [1, 2, 3] (configuredState 4)).2).1 = [1, 2, 3] ∧
    prv_ring_empty (ring_pop 3 (ring_push [1, 2, 3] (configuredState 4)).2).2 = true :=
  have h := claim_C2 4 (by decide) (by decide) [1, 2, 3] (by decide)
  ⟨h.1, h.2.1, h.2.2.1⟩

/-- C3: pushing `n` bytes into a configured state with `k = capacity - 1 -
count` free slots, `k < n`, returns exactly `k`, adds `k` to
`total_pushed`, and appends exactly the first `k` input bytes to the
queued contents, so that popping everything yields the old contents
followed by those `k` bytes; the operation is total, so no error is
raised for the truncation. -/
theorem claim_C3 (s : ModuleState) (h : Inv s) (data : List Nat)
    (hlen : s.capacity - 1 - ringCount s < data.length) :
    (ring_push data s).1 = s.capacity - 1 - ringCount s ∧
    (ring_push data s).2.total_pushed =
      s.total_pushed + (s.capacity - 1 - ringCount s) ∧
    ringList (ring_push data s).2 =
      ringList s ++ data.take (s.capacity - 1 - ringCount s) ∧
    (ring_pop (ringCount (ring_push data s).2) (ring_push data s).2).1 =
      ringList s ++ data.take (s.capacity - 1 - ringCount s) := by
  obtain ⟨p1, p2, p3, p4, p5, p6, p7, p8⟩ := ring_push_spec data s h
  have hn : (ring_push data s).1 = s.capacity - 1 - ringCount s := by
    rw [p1]
    omega
  refine ⟨hn, by rw [p5, hn], by rw [p8, hn], ?_⟩
  obtain ⟨q1, -, -, -, -, -, -, -, -⟩ :=
    ring_pop_spec (ringCount (ring_push data s).2) (ring_push data s).2 p2
  rw [q1, ← ringList_length, List.take_length, p8, hn]

set_option maxRecDepth 100000 in
/-- Witness for C3: capacity 4 (3 usable slots), pushing 5 bytes. -/
theorem claim_C3_witness :
    (ring_push [1, 2, 3, 4, 5] (configuredState 4)).1 =
      (configuredState 4).capacity - 1 - ringCount (configuredState 4) ∧
    (ring_push [1, 2, 3, 4, 5] (configuredState 4)).2.total_pushed =
      (configuredState 4).total_pushed +
        ((configuredState 4).capacity - 1 - ringCount (configuredState 4)) :=
  have h := claim_C3 (configuredState 4) (by decide) [1, 2, 3, 4, 5] (by decide)
  ⟨h.1, h.2.1⟩

set_option maxRecDepth 100000 in
/-- C4 fails as stated: after configure(4); push [7]; configure(4) — a
sequence of public-interface calls with no intervening reset —
`total_pushed - total_popped = 1` but the buffer queues 0 bytes, because a
successful configuration call resets `head`/`tail` without touching the
counters. -/
theorem claim_C4_counterexample :
    ¬ ((run [Op.push [7], Op.setConfig 4] (configuredState 4)).total_pushed -
        (run [Op.push [7], Op.setConfig 4] (configuredState 4)).total_popped =
        (ringList (run [Op.push [7], Op.setConfig 4] (configuredState 4))).length) := by
  decide

/-- C4 (amended): after any sequence of ring operations with no
intervening reset, starting from a freshly configured state,
`total_pushed` equals `total_popped` plus the bytes currently queued plus
the bytes discarded by successful configuration calls along the way (so
the original equality holds exactly when no successful configuration call
occurred while bytes were queued). -/
theorem claim_C4 (c : Nat) (h1 : 1 ≤ c) (h2 : c ≤ 1024) (ops : List Op)
    (hops : ∀ op ∈ ops, op ≠ Op.reset) :
    (runD ops (configuredState c, 0)).1.total_pushed =
      (runD ops (configuredState c, 0)).1.total_popped +
        (ringList (runD ops (configuredState c, 0)).1).length +
        (runD ops (configuredState c, 0)).2 := by
  obtain ⟨hI, -, hcnt, -, hp, hq⟩ := configured_spec c h1 h2
  have hr := runD_conservation ops (configuredState c) 0 hI (by rw [hp, hq, hcnt]) hops
  rw [ringList_length]
  exact hr.2

set_option maxRecDepth 100000 in
/-- Witness for the amended C4 on the counterexample trace: the discard
account makes the books balance. -/
theorem claim_C4_witness :
    (runD [Op.push [7], Op.setConfig 4] (configuredState 4, 0)).1.total_pushed =
      (runD [Op.push [7], Op.setConfig 4] (configuredState 4, 0)).1.total_popped +
        (ringList (runD [Op.push [7], Op.setConfig 4] (configuredState 4, 0)).1).length +
        (runD [Op.push [7], Op.setConfig 4] (configuredState 4, 0)).2 :=
  claim_C4 4 (by decide) (by decide) [Op.push [7], Op.setConfig 4] (by decide)

/-- C5: configuration succeeds iff `1 ≤ c ≤ 1024`; on failure it returns
false synchronously with no state mutation; on success the active
capacity is `c` (usable payload capacity `c - 1`) and `head`/`tail` are
reset to 0. Both `module_set_config` and `module_init` behave this way. -/
theorem claim_C5 (c : Nat) (s : ModuleState) :
    ((module_set_config c s).1 = true ↔ 1 ≤ c ∧ c ≤ 1024) ∧
    ((module_set_config c s).1 = false → (module_set_config c s).2 = s) ∧
    ((module_set_config c s).1 = true →
      (module_set_config c s).2.capacity = c ∧
      usable_capacity (module_set_config c s).2 = c - 1 ∧
      (module_set_config c s).2.head = 0 ∧ (module_set_config c s).2.tail = 0) ∧
    ((module_init (some c) s).1 = true ↔ 1 ≤ c ∧ c ≤ 1024) ∧
    ((module_init (some c) s).1 = false → (module_init (some c) s).2 = s) ∧
    ((module_init (some c) s).1 = true →
      (module_init (some c) s).2.capacity = c ∧
      (module_init (some c) s).2.head = 0 ∧ (module_init (some c) s).2.tail = 0) := by
  by_cases hc : c = 0 ∨ c > 1024
  · simp [module_set_config, module_init, hc]
    omega
  · simp [module_set_config, module_init, usable_capacity, hc]
    omega

/-- Witness for C5: a failing configure (capacity 0) mutates nothing, and
a successful configure (capacity 7) sets capacity 7 and head 0. -/
theorem claim_C5_witness :
    (module_set_config 0 initialState).2 = initialState ∧
    (module_set_config 7 initialState).2.capacity = 7 ∧
    (module_set_config 7 initialState).2.head = 0 :=
  ⟨(claim_C5 0 initialState).2.1 (by decide),
    ((claim_C5 7 initialState).2.2.1 (by decide)).1,
    ((claim_C5 7 initialState).2.2.1 (by decide)).2.2.1⟩

/-- C6: the checksum of the empty sequence is 0xFFFF; on any CRC state the
module can reach (ready flag only set with the built table), the checksum
of a fixed byte sequence is the same value no matter how often the lazy
build has run, and the state stays well formed; and the checksum of the
ASCII bytes of "123456789" is the standard vector 0x29B1. -/
theorem claim_C6 :
    (∀ st : CrcState, (crc16_ccitt [] st).1 = 0xFFFF) ∧
    (∀ (st : CrcState) (data : List Nat), goodCrcState st →
      (crc16_ccitt data st).1 = crc16_value data ∧
      goodCrcState (crc16_ccitt data st).2) ∧
    crc16_value [49, 50, 51, 52, 53, 54, 55, 56, 57] = 0x29B1 := by
  refine ⟨fun st => rfl, fun st data h => crc16_ccitt_good data st h, ?_⟩
  decide

/-- Witness for C6: the determinism clause applied at the start-up CRC
state (lazy build not yet run) on a concrete input. -/
theorem claim_C6_witness :
    (crc16_ccitt [1, 2] initialCrcState).1 = crc16_value [1, 2] :=
  (claim_C6.2.1 initialCrcState [1, 2] (by decide)).1

/-- C7: on byte inputs, the table-driven checksum equals the direct
bit-by-bit CRC-16/CCITT-FALSE reference computation. -/
theorem claim_C7 (data : List Nat) (hdata : ∀ b ∈ data, b < 256) :
    crc16_value data = crc16_ref data := by
  rw [crc16_value_fold]
  unfold crc16_ref
  exact crc_fold_eq data 0xFFFF (by norm_num) hdata

/-- Witness for C7 on the ASCII bytes of "123456789". -/
theorem claim_C7_witness :
    crc16_value [49, 50, 51, 52, 53, 54, 55, 56, 57] =
      crc16_ref [49, 50, 51, 52, 53, 54, 55, 56, 57] :=
  claim_C7 [49, 50, 51, 52, 53, 54, 55, 56, 57] (by decide)

/-- C8: configuring capacity 1 succeeds, and after it (and any further
push/pop calls) every push returns 0 regardless of the input: the full
predicate triggers immediately. -/
theorem claim_C8 (s : ModuleState) (hs : s.storage.length = 1024) (ops : List Op)
    (hops : ∀ op ∈ ops, op.isPushPop = true) (data : List Nat) :
    (module_set_config 1 s).1 = true ∧
    (ring_push data (run ops (module_set_config 1 s).2)).1 = 0 := by
  have hc : ¬ ((1 : Nat) = 0 ∨ (1 : Nat) > 1024) := by omega
  have he : (module_set_config 1 s).2 =
      { s with config_capacity := 1, capacity := 1, head := 0, tail := 0 } := by
    simp [module_set_config, hc]
  have hI : Inv (module_set_config 1 s).2 := by
    rw [he]
    exact ⟨hs, show (1 : Nat) ≤ 1 by omega, show (1 : Nat) ≤ 1024 by omega,
      show (0 : Nat) < 1 by omega, show (0 : Nat) < 1 by omega⟩
  have hI2 : Inv (run ops (module_set_config 1 s).2) := run_inv _ _ hI
  have hcap : (run ops (module_set_config 1 s).2).capacity = 1 := by
    rw [run_pushpop_capacity ops _ hI hops, he]
  obtain ⟨p1, -, -, -, -, -, -, -⟩ := ring_push_spec data _ hI2
  constructor
  · simp [module_set_config, hc]
  · rw [p1, hcap]
    omega

set_option maxRecDepth 100000 in
/-- Witness for C8 from the start-up state, one interleaved push, then a
push of [1, 2]. -/
theorem claim_C8_witness :
    (module_set_config 1 initialState).1 = true ∧
    (ring_push [1, 2] (run [Op.push [9]] (module_set_config 1 initialState).2)).1 = 0 :=
  claim_C8 initialState (by decide) [Op.push [9]] (by decide) [1, 2]

/-- C9: `module_reset` always succeeds and zeroes `head`, `tail` and both
cumulative counters; configuration calls leave both counters unchanged,
and every non-reset ring operation can only keep or increase them — reset
is the only operation that zeroes them. -/
theorem claim_C9 (s : ModuleState) (c : Nat) (cfg : Option Nat) (op : Op)
    (hop : op ≠ Op.reset) :
    (module_reset s).head = 0 ∧ (module_reset s).tail = 0 ∧
    (module_reset s).total_pushed = 0 ∧ (module_reset s).total_popped = 0 ∧
    (module_set_config c s).2.total_pushed = s.total_pushed ∧
    (module_set_config c s).2.total_popped = s.total_popped ∧
    (module_init cfg s).2.total_pushed = s.total_pushed ∧
    (module_init cfg s).2.total_popped = s.total_popped ∧
    s.total_pushed ≤ (step op s).total_pushed ∧
    s.total_popped ≤ (step op s).total_popped := by
  refine ⟨rfl, rfl, rfl, rfl, ?_, ?_, ?_, ?_, ?_, ?_⟩
  · by_cases hc : c = 0 ∨ c > 1024 <;> simp [module_set_config, hc]
  · by_cases hc : c = 0 ∨ c > 1024 <;> simp [module_set_config, hc]
  · by_cases hc : cfg.getD s.config_capacity = 0 ∨ cfg.getD s.config_capacity > 1024 <;>
      simp [module_init, hc]
  · by_cases hc : cfg.getD s.config_capacity = 0 ∨ cfg.getD s.config_capacity > 1024 <;>
      simp [module_init, hc]
  · cases op with
    | reset => exact absurd rfl hop
    | setConfig c2 =>
      by_cases hc : c2 = 0 ∨ c2 > 1024 <;> simp [step, module_set_config, hc]
    | initConfig cfg2 =>
      by_cases hc : cfg2.getD s.config_capacity = 0 ∨ cfg2.getD s.config_capacity > 1024 <;>
        simp [step, module_init, hc]
    | push d => exact (ring_push_counters d s).1
    | pop n => exact Nat.le_of_eq (ring_pop_counters n s).1.symm
  · cases op with
    | reset => exact absurd rfl hop
    | setConfig c2 =>
      by_cases hc : c2 = 0 ∨ c2 > 1024 <;> simp [step, module_set_config, hc]
    | initConfig cfg2 =>
      by_cases hc : cfg2.getD s.config_capacity = 0 ∨ cfg2.getD s.config_capacity > 1024 <;>
        simp [step, module_init, hc]
    | push d => exact Nat.le_of_eq (ring_push_counters d s).2.symm
    | pop n => exact (ring_pop_counters n s).2

/-- Witness for C9 at the start-up state, capacity 5, NULL init config and
a push operation. -/
theorem claim_C9_witness :
    (module_reset initialState).head = 0 ∧
    (module_reset initialState).tail = 0 ∧
    (module_reset initialState).total_pushed = 0 ∧
    (module_reset initialState).total_popped = 0 ∧
    (module_set_config 5 initialState).2.total_pushed = initialState.total_pushed ∧
    (module_set_config 5 initialState).2.total_popped = initialState.total_popped ∧
    (module_init none initialState).2.total_pushed = initialState.total_pushed ∧
    (module_init none initialState).2.total_popped = initialState.total_popped ∧
    initialState.total_pushed ≤ (step (Op.push [1]) initialState).total_pushed ∧
    initialState.total_popped ≤ (step (Op.push [1]) initialState).total_popped :=
  claim_C9 initialState 5 none (Op.push [1]) (by decide)

/-- C10: under the precondition that configuration succeeded (the state
invariant holds, in particular `capacity ≥ 1`), push and pop evaluate no
modulo with a zero divisor and access no storage index outside
`[0, capacity)` ⊆ `[0, 1024)` — the checked semantics agrees with the
total one — while in the start-up state (`capacity == 0`) a push with a
non-null pointer and non-zero length evaluates `(head + 1) % 0`, so the
division-guard branch of the checked semantics is reached. -/
theorem claim_C10 (s : ModuleState) (data : List Nat) (len : Nat) (h : Inv s)
    (hdata : data ≠ []) :
    ring_push? data s = some (ring_push data s) ∧
    ring_pop? len s = some (ring_pop len s) ∧
    s.head < s.capacity ∧ s.tail < s.capacity ∧ s.capacity ≤ 1024 ∧
    ring_push? data initialState = none := by
  refine ⟨ring_push_eq data s h, ring_pop_eq len s h,
    h.2.2.2.1, h.2.2.2.2, h.2.2.1, ?_⟩
  rcases data with - | ⟨b, rest⟩
  · exact absurd rfl hdata
  · rfl

set_option maxRecDepth 100000 in
/-- Witness for C10 at capacity 3 with data [1]. -/
theorem claim_C10_witness :
    ring_push? [1] (configuredState 3) = some (ring_push [1] (configuredState 3)) ∧
    ring_pop? 1 (configuredState 3) = some (ring_pop 1 (configuredState 3)) ∧
    ring_push? [1] initialState = none :=
  have h := claim_C10 (configuredState 3) [1] 1 (by decide) (by decide)
  ⟨h.1, h.2.1, h.2.2.2.2.2⟩

end UtilModule
